import Mathlib

/-!
Shallow embedding of the minikv key-value store (codenoid/minikv,
`minikv.go`, the event-indexed version whose `KV` carries the
`metaAdd`/`metaUpdate`/`metaDelete` channels and the `exp` bucket map).

Modelling conventions:
* `interface{}` values stored by callers are an opaque type parameter `α`;
  a Go interface value handed to a callback is modelled by `GoIface α`,
  which distinguishes an object (possibly `nil`, i.e. `Option α`) from an
  `int64` payload, because `DeleteExpired` passes `itm.Expiration` (an
  `int64`) where a value is expected.
* `time.Time`/`int64` nanosecond timestamps and `time.Duration` are
  modelled on `Int`; no claim under consideration involves `int64`
  wraparound, so overflow is not modelled.
* `sync.Map` (the `items` field) and the Go map `exp` are modelled as
  association lists; iteration order of a Go map (unspecified at the Go
  level) is the list order of the model.
* the three metadata channels are modelled by returning the list of
  messages an operation sends; the registered callbacks by `Bool` flags
  (nil or not) plus the list of invocations an operation spawns.
* fallible operations return their `error` as an `Option String` holding
  the message built by `errors.New`.
-/

namespace minikv

/-- Item as in the source: `Key string; Object interface{}; Expiration int64`.
`Object : Option α` models the interface value, `none` being Go `nil`
(the zero `Item`'s `Object`). -/
structure Item (α : Type) where
  Key : String
  Object : Option α
  Expiration : Int
deriving DecidableEq, Repr

/-- Go's zero value of type `Item`: empty key, nil object, zero expiration. -/
def zeroItem {α : Type} : Item α := ⟨"", none, 0⟩

/-- Payload of the `metaAdd` and `metaDelete` channels (`type meta struct`). -/
structure Meta where
  Key : String
  Expiration : Int
deriving DecidableEq, Repr

/-- Payload of the `metaUpdate` channel (`type updateMeta struct`, the
embedded `meta` flattened into `Key`/`Expiration`). -/
structure UpdateMeta where
  Key : String
  Expiration : Int
  PriorExpiration : Int
deriving DecidableEq, Repr

/-- A message sent on one of the three metadata channels. -/
inductive Ev where
  | added (m : Meta)
  | updated (m : UpdateMeta)
  | removed (m : Meta)
deriving DecidableEq, Repr

/-- A Go `interface{}` argument as passed to a callback: either an object
(possibly nil) or an `int64`. -/
inductive GoIface (α : Type) where
  | ofObj (o : Option α)
  | ofInt (n : Int)
deriving DecidableEq, Repr

/-- Which callback slot an invocation went to. -/
inductive CbKind where
  | deleted
  | evicted
deriving DecidableEq, Repr

/-- One spawned callback invocation (`go kv.onDeleted(...)` / `go kv.onEvicted(...)`). -/
structure CbCall (α : Type) where
  kind : CbKind
  key : String
  arg : GoIface α
deriving DecidableEq, Repr

/-- Association-list lookup, modelling `sync.Map.Load` / Go map indexing. -/
def alLookup {κ β : Type} [DecidableEq κ] : List (κ × β) → κ → Option β
  | [], _ => none
  | p :: rest, k => if p.1 = k then some p.2 else alLookup rest k

/-- Association-list store, modelling `sync.Map.Store` / Go map assignment:
replace the binding if the key is bound, append otherwise. -/
def alStore {κ β : Type} [DecidableEq κ] : List (κ × β) → κ → β → List (κ × β)
  | [], k, v => [(k, v)]
  | p :: rest, k, v => if p.1 = k then (k, v) :: rest else p :: alStore rest k v

/-- Association-list erase, modelling `sync.Map.Delete` / Go `delete`. -/
def alErase {κ β : Type} [DecidableEq κ] : List (κ × β) → κ → List (κ × β)
  | [], _ => []
  | p :: rest, k => if p.1 = k then alErase rest k else p :: alErase rest k

/-- The bucket index `exp map[int64]map[string]*struct{}`, each inner set
modelled as a duplicate-free list of keys. -/
abbrev Buckets := List (Int × List String)

/-- Go map-set insertion `curr[k] = &struct{}{}` (idempotent). -/
def bucketInsert (ks : List String) (k : String) : List String :=
  if k ∈ ks then ks else ks ++ [k]

/-- Go map-set removal `delete(curr, k)`. -/
def bucketRemove (ks : List String) (k : String) : List String :=
  ks.filter (fun x => x ≠ k)

/-- The KV store state: configuration, the `items` map, whether each
callback slot is non-nil, and the janitor's bucket index `exp`. -/
structure KV (α : Type) where
  defaultExpiration : Int
  cleanupInterval : Int
  items : List (String × Item α)
  onDeleted : Bool
  onEvicted : Bool
  exp : Buckets
deriving DecidableEq, Repr

/-- Sentinel `NoExpiration time.Duration = -1`. -/
def NoExpiration : Int := -1

/-- Sentinel `DefaultExpiration time.Duration = 0`. -/
def DefaultExpiration : Int := 0

/-- `func (kv *KV) Set(key string, value interface{}, exp time.Duration)`:
resolve the absolute expiration from the duration, store the item, and
send `metaAdd` when the key was absent or `metaUpdate` when present with
a changed expiration. Returns the new state and the channel messages. -/
def Set {α : Type} (now : Int) (kv : KV α) (key : String) (value : α)
    (exp : Int) : KV α × List Ev :=
  let expiredAt : Int :=
    if exp = DefaultExpiration then now + kv.defaultExpiration
    else if exp = NoExpiration then 0
    else now + exp
  let item : Item α := ⟨key, some value, expiredAt⟩
  match alLookup kv.items key with
  | none =>
      ({ kv with items := alStore kv.items key item },
       [Ev.added ⟨item.Key, item.Expiration⟩])
  | some priorItem =>
      ({ kv with items := alStore kv.items key item },
       if item.Expiration ≠ priorItem.Expiration then
         [Ev.updated ⟨key, expiredAt, priorItem.Expiration⟩]
       else [])

/-- `func (kv *KV) Update(key string, value interface{}) error`: replace the
`Object` of an existing item, keeping `Key` and `Expiration`, and send a
`metaAdd` message; error when the key is absent. Returns
(error, new state, channel messages). -/
def Update {α : Type} (kv : KV α) (key : String) (value : α) :
    Option String × KV α × List Ev :=
  match alLookup kv.items key with
  | none => (some "object doesn't exist", kv, [])
  | some item =>
      let item' : Item α := { item with Object := some value }
      (none, { kv with items := alStore kv.items key item' },
       [Ev.added ⟨item'.Key, item'.Expiration⟩])

/-- `func (kv *KV) Get(key string) (interface{}, bool)`: return the object
and `true` when the item is present with `Expiration > now`, else `(nil, false)`. -/
def Get {α : Type} (now : Int) (kv : KV α) (key : String) : Option α × Bool :=
  match alLookup kv.items key with
  | some val => if val.Expiration > now then (val.Object, true) else (none, false)
  | none => (none, false)

/-- `func (kv *KV) IsExist(key string) bool`: present with `Expiration > now`. -/
def IsExist {α : Type} (now : Int) (kv : KV α) (key : String) : Bool :=
  match alLookup kv.items key with
  | some val => val.Expiration > now
  | none => false

/-- `func (kv *KV) deleteInner(key string) (val Item, err error)`. The
source's branch declares a fresh `val := obj.(Item)`, shadowing the named
return value, so on success the function fires `onDeleted` with the real
item's object but returns the zero `Item`. Returns
((returned item, error), new state, spawned callback calls). -/
def deleteInner {α : Type} (kv : KV α) (key : String) :
    (Item α × Option String) × KV α × List (CbCall α) :=
  match alLookup kv.items key with
  | some valInner =>
      ((zeroItem, none),
       { kv with items := alErase kv.items key },
       if kv.onDeleted then [⟨CbKind.deleted, key, GoIface.ofObj valInner.Object⟩] else [])
  | none => ((zeroItem, some "key args not exist"), kv, [])

/-- `func (kv *KV) Delete(key string) error`: delete through `deleteInner`
and, on success, send `metaDelete` with the returned item's fields (the
zero `Item`, due to the shadowing in `deleteInner`). -/
def Delete {α : Type} (kv : KV α) (key : String) :
    Option String × KV α × List (CbCall α) × List Ev :=
  match deleteInner kv key with
  | ((itm, none), kv', calls) =>
      (none, kv', calls, [Ev.removed ⟨itm.Key, itm.Expiration⟩])
  | ((_, some e), kv', calls) => (some e, kv', calls, [])

/-- `func (kv *KV) ItemCountAll() int`: count of physically present entries. -/
def ItemCountAll {α : Type} (kv : KV α) : Nat :=
  kv.items.length

/-- `func (kv *KV) ItemCount() int`: count of entries with `Expiration > now`. -/
def ItemCount {α : Type} (now : Int) (kv : KV α) : Nat :=
  (kv.items.filter (fun p => p.2.Expiration > now)).length

/-- The inner loop of `DeleteExpired` over one bucket's key set:
`deleteInner` each key and, when that deletion succeeded and `onEvicted`
is non-nil, spawn `onEvicted(itm.Key, itm.Expiration)` — with `itm` the
zero `Item` returned by `deleteInner`. -/
def sweepKeys {α : Type} : KV α → List String → KV α × List (CbCall α)
  | kv, [] => (kv, [])
  | kv, k :: ks =>
      let r := deleteInner kv k
      let evCall : List (CbCall α) :=
        if r.1.2 = none ∧ r.2.1.onEvicted then
          [⟨CbKind.evicted, r.1.1.Key, GoIface.ofInt r.1.1.Expiration⟩]
        else []
      let rest := sweepKeys r.2.1 ks
      (rest.1, r.2.2 ++ evCall ++ rest.2)

/-- The condition of `DeleteExpired`'s loop: `expiration < now && len(keys) > 0`. -/
def dueBucket (now : Int) (b : Int × List String) : Bool :=
  decide (b.1 < now) && !b.2.isEmpty

/-- `func (kv *KV) DeleteExpired()`: range over `exp` until the first bucket
with `expiration < now && len(keys) > 0`, delete its keys, note its
timestamp in `expired` and break; finally `delete(kv.exp, expired)` —
`expired` staying `0` when no bucket matched. -/
def DeleteExpired {α : Type} (now : Int) (kv : KV α) : KV α × List (CbCall α) :=
  match kv.exp.find? (dueBucket now) with
  | some b =>
      let r := sweepKeys kv b.2
      ({ r.1 with exp := alErase r.1.exp b.1 }, r.2)
  | none => ({ kv with exp := alErase kv.exp 0 }, [])

/-- `func (kv *KV) Flush()`: range over `items` deleting every key; spawns
no callback and sends no channel message. -/
def Flush {α : Type} (kv : KV α) : KV α × List (CbCall α) × List Ev :=
  ({ kv with items := kv.items.foldl (fun acc p => alErase acc p.1) kv.items },
   [], [])

/-- The `case lm := <-kv.metaAdd` branch of `runJanitor`: insert the key
into the bucket of its expiration, creating the bucket if absent. -/
def applyMetaAdd (lm : Meta) (e : Buckets) : Buckets :=
  match alLookup e lm.Expiration with
  | some curr => alStore e lm.Expiration (bucketInsert curr lm.Key)
  | none => alStore e lm.Expiration [lm.Key]

/-- The `case mu := <-kv.metaUpdate` branch of `runJanitor`: remove the key
from the prior expiration's bucket when that bucket exists (storing the
possibly-empty bucket back), then insert into the new expiration's bucket,
creating it if absent. -/
def applyMetaUpdate (mu : UpdateMeta) (e : Buckets) : Buckets :=
  let e1 :=
    match alLookup e mu.PriorExpiration with
    | some curr => alStore e mu.PriorExpiration (bucketRemove curr mu.Key)
    | none => e
  match alLookup e1 mu.Expiration with
  | some curr => alStore e1 mu.Expiration (bucketInsert curr mu.Key)
  | none => alStore e1 mu.Expiration [mu.Key]

/-- The `case md := <-kv.metaDelete` branch of `runJanitor`: remove the key
from the bucket of the recorded expiration when that bucket exists,
storing the possibly-empty bucket back. -/
def applyMetaDelete (md : Meta) (e : Buckets) : Buckets :=
  match alLookup e md.Expiration with
  | some curr => alStore e md.Expiration (bucketRemove curr md.Key)
  | none => e

/-! Helper lemmas about the association-list operations. -/

theorem alLookup_alStore_self {κ β : Type} [DecidableEq κ]
    (l : List (κ × β)) (k : κ) (v : β) :
    alLookup (alStore l k v) k = some v := by
  induction l with
  | nil => simp [alStore, alLookup]
  | cons p rest ih =>
      by_cases h : p.1 = k
      · simp [alStore, alLookup, h]
      · simp [alStore, alLookup, h, ih]

theorem alLookup_alStore_ne {κ β : Type} [DecidableEq κ]
    (l : List (κ × β)) (k k' : κ) (v : β) (h : k' ≠ k) :
    alLookup (alStore l k v) k' = alLookup l k' := by
  induction l with
  | nil => simp [alStore, alLookup, Ne.symm h]
  | cons p rest ih =>
      by_cases hp : p.1 = k
      · simp [alStore, alLookup, hp, Ne.symm h]
      · simp [alStore, alLookup, hp, ih]

theorem alLookup_alErase_self {κ β : Type} [DecidableEq κ]
    (l : List (κ × β)) (k : κ) :
    alLookup (alErase l k) k = none := by
  induction l with
  | nil => simp [alErase, alLookup]
  | cons p rest ih =>
      by_cases h : p.1 = k
      · simpa [alErase, h] using ih
      · simpa [alErase, alLookup, h] using ih

theorem alLookup_alErase_ne {κ β : Type} [DecidableEq κ]
    (l : List (κ × β)) (k k' : κ) (h : k' ≠ k) :
    alLookup (alErase l k) k' = alLookup l k' := by
  induction l with
  | nil => simp [alErase, alLookup]
  | cons p rest ih =>
      by_cases hp : p.1 = k
      · simpa [alErase, alLookup, hp, Ne.symm h] using ih
      · simp [alErase, alLookup, hp, ih]

theorem alErase_of_lookup_none {κ β : Type} [DecidableEq κ]
    (l : List (κ × β)) (k : κ) (h : alLookup l k = none) :
    alErase l k = l := by
  induction l with
  | nil => simp [alErase]
  | cons p rest ih =>
      by_cases hp : p.1 = k
      · simp [alLookup, hp] at h
      · simp [alLookup, hp] at h
        simp [alErase, hp, ih h]

theorem mem_alErase_of_mem {κ β : Type} [DecidableEq κ]
    {l : List (κ × β)} {p : κ × β} {k : κ} (h : p ∈ l) (hk : p.1 ≠ k) :
    p ∈ alErase l k := by
  induction l with
  | nil => cases h
  | cons q rest ih =>
      rcases List.mem_cons.mp h with h1 | h2
      · subst h1
        simp [alErase, hk]
      · by_cases hq : q.1 = k
        · simpa [alErase, hq] using ih h2
        · simp [alErase, hq]
          exact Or.inr (ih h2)

theorem mem_of_mem_alErase {κ β : Type} [DecidableEq κ]
    {l : List (κ × β)} {p : κ × β} {k : κ} (h : p ∈ alErase l k) :
    p ∈ l ∧ p.1 ≠ k := by
  induction l with
  | nil => simp [alErase] at h
  | cons q rest ih =>
      by_cases hq : q.1 = k
      · simp [alErase, hq] at h
        exact ⟨List.mem_cons_of_mem _ (ih h).1, (ih h).2⟩
      · simp [alErase, hq] at h
        rcases h with h1 | h2
        · subst h1
          exact ⟨List.mem_cons_self _ _, hq⟩
        · exact ⟨List.mem_cons_of_mem _ (ih h2).1, (ih h2).2⟩

theorem mem_bucketInsert_self (ks : List String) (k : String) :
    k ∈ bucketInsert ks k := by
  by_cases h : k ∈ ks <;> simp [bucketInsert, h]

/-! Lemmas about the sweep loop and folded erasure. -/

theorem sweepKeys_exp {α : Type} (kv : KV α) (ks : List String) :
    (sweepKeys kv ks).1.exp = kv.exp := by
  induction ks generalizing kv with
  | nil => rfl
  | cons k ks ih =>
      cases hl : alLookup kv.items k with
      | some it => simp [sweepKeys, deleteInner, hl, ih]
      | none => simp [sweepKeys, deleteInner, hl, ih]

theorem sweepKeys_items {α : Type} (kv : KV α) (ks : List String) :
    (sweepKeys kv ks).1.items = ks.foldl (fun acc k => alErase acc k) kv.items := by
  induction ks generalizing kv with
  | nil => rfl
  | cons k ks ih =>
      cases hl : alLookup kv.items k with
      | some it => simp [sweepKeys, deleteInner, hl, List.foldl_cons, ih]
      | none =>
          have he : alErase kv.items k = kv.items := alErase_of_lookup_none _ _ hl
          simp [sweepKeys, deleteInner, hl, List.foldl_cons, ih, he]

theorem alLookup_foldl_alErase_none {κ β : Type} [DecidableEq κ]
    (ks : List κ) (l : List (κ × β)) (k : κ) (h : alLookup l k = none) :
    alLookup (ks.foldl (fun acc x => alErase acc x) l) k = none := by
  induction ks generalizing l with
  | nil => exact h
  | cons x ks ih =>
      rw [List.foldl_cons]
      apply ih
      by_cases hx : k = x
      · subst hx
        exact alLookup_alErase_self _ _
      · rw [alLookup_alErase_ne _ _ _ hx]
        exact h

theorem alLookup_foldl_alErase_mem {κ β : Type} [DecidableEq κ]
    (ks : List κ) (l : List (κ × β)) (k : κ) (h : k ∈ ks) :
    alLookup (ks.foldl (fun acc x => alErase acc x) l) k = none := by
  induction ks generalizing l with
  | nil => cases h
  | cons x ks ih =>
      rw [List.foldl_cons]
      by_cases hx : k = x
      · subst hx
        exact alLookup_foldl_alErase_none _ _ _ (alLookup_alErase_self _ _)
      · have hmem : k ∈ ks := by
          rcases List.mem_cons.mp h with h1 | h2
          · exact absurd h1 hx
          · exact h2
        exact ih _ hmem

theorem alLookup_foldl_alErase_not_mem {κ β : Type} [DecidableEq κ]
    (ks : List κ) (l : List (κ × β)) (k : κ) (h : k ∉ ks) :
    alLookup (ks.foldl (fun acc x => alErase acc x) l) k = alLookup l k := by
  induction ks generalizing l with
  | nil => rfl
  | cons x ks ih =>
      have hx : k ≠ x := fun he => h (he ▸ List.mem_cons_self x ks)
      have hks : k ∉ ks := fun hm => h (List.mem_cons_of_mem _ hm)
      rw [List.foldl_cons, ih _ hks, alLookup_alErase_ne _ _ _ hx]

theorem foldl_alErase_keys_nil {κ β : Type} [DecidableEq κ] :
    ∀ (l acc : List (κ × β)), (∀ p ∈ acc, p.1 ∈ l.map Prod.fst) →
      l.foldl (fun a p => alErase a p.1) acc = [] := by
  intro l
  induction l with
  | nil =>
      intro acc h
      cases acc with
      | nil => rfl
      | cons q rest =>
          have := h q (List.mem_cons_self _ _)
          simp at this
  | cons p rest ih =>
      intro acc h
      rw [List.foldl_cons]
      apply ih
      intro q hq
      rcases mem_of_mem_alErase hq with ⟨hqa, hqne⟩
      have := h q hqa
      simp at this ⊢
      rcases this with h1 | h2
      · exact absurd h1 hqne
      · exact h2

/-! Concrete store states used to evaluate the operations at specific inputs. -/

/-- Empty store with default TTL 3600 ns, for exercising `Set` with the
never-expire sentinel. -/
def kvC1 : KV String := ⟨3600, 0, [], false, false, []⟩

/-- Store holding one never-expire item (`Expiration = 0`) whose key sits in
bucket `0` of the index, exactly the state `Set(k, v, NoExpiration)`
followed by the janitor's `metaAdd` handling produces; `onEvicted`
registered. -/
def kvC2 : KV String := ⟨0, 0, [("k", ⟨"k", some "v", 0⟩)], false, true, [(0, ["k"])]⟩

/-- Store with one item due for eviction and `onEvicted` registered. -/
def kvC4 : KV String := ⟨0, 0, [("a", ⟨"a", some "v", 1⟩)], false, true, [(1, ["a"])]⟩

/-- Index still lists key `ghost` in a due bucket, but the item has already
vanished from the store; `onEvicted` registered. -/
def kvC4b : KV String := ⟨0, 0, [], false, true, [(1, ["ghost"])]⟩

/-- Store with one item and `onDeleted` registered, for exercising `Delete`. -/
def kvC5 : KV String := ⟨0, 0, [("a", ⟨"a", some "v", 7⟩)], true, false, []⟩

/-- Store with one already-expired item, for exercising `Get`'s not-found path. -/
def kvC10 : KV String := ⟨0, 0, [("k", ⟨"k", some "v", 3⟩)], false, false, []⟩

/-- Claim C1: `Get(key)` should return `(value, true)` exactly when the key
is present and not logically expired, where expiry requires a nonzero
`expiresAt` strictly in the past; in particular an item stored with the
never-expire sentinel (`expiresAt == 0`) should always be returned, with
`IsExist` agreeing. The code violates this: `Get` and `IsExist` demand
`Expiration > now`, so an item stored through `Set(k, v, NoExpiration)` —
physically present with `Expiration = 0` — is reported absent at any
positive `now`. This theorem evaluates the code at that failing input. -/
theorem C1_get_never_expire_bug :
    alLookup (Set 5 kvC1 "k" "v" NoExpiration).1.items "k" = some ⟨"k", some "v", 0⟩ ∧
    Get 6 (Set 5 kvC1 "k" "v" NoExpiration).1 "k" = (none, false) ∧
    IsExist 6 (Set 5 kvC1 "k" "v" NoExpiration).1 "k" = false := by
  decide

/-- Claim C2: a key with the never-expire sentinel should appear in no
expiration bucket and never be selected for eviction. The code violates
this: the janitor's `metaAdd` branch inserts the key into bucket `0`
without any sentinel check, and `DeleteExpired` treats bucket `0` as due
(`0 < now`), physically deleting the never-expire item and spawning the
eviction callback. This theorem evaluates the code at that failing
input. -/
theorem C2_never_expire_indexed_and_swept :
    applyMetaAdd ⟨"k", 0⟩ [] = [(0, ["k"])] ∧
    (DeleteExpired 5 kvC2).1.items = [] ∧
    alLookup (DeleteExpired 5 kvC2).1.exp 0 = none ∧
    (DeleteExpired 5 kvC2).2 = [⟨CbKind.evicted, "", GoIface.ofInt 0⟩] := by
  decide

/-- Claim C4: the sweep should invoke `onEvicted` with the evicted key and
the removed stored object. The code violates this: `deleteInner`'s inner
`val :=` shadows its named return, so the sweep sees the zero `Item` and
calls `onEvicted(itm.Key, itm.Expiration)` — that is, `("", int64(0))` —
instead of `("a", "v")`. The third conjunct checks the part of the claim
the code does honour: no invocation for a key that had already vanished
from the store. -/
theorem C4_evict_callback_bug :
    (DeleteExpired 10 kvC4).2 = [⟨CbKind.evicted, "", GoIface.ofInt 0⟩] ∧
    alLookup (DeleteExpired 10 kvC4).1.items "a" = none ∧
    (DeleteExpired 10 kvC4b).2 = [] := by
  decide

/-- Claim C5: `Delete` on a present key should remove the item, fire
`onDeleted` with the removed value, emit a `Removed` event carrying that
key and its expiration, and return no error; a second `Delete` should
fail. The code removes the item, fires `onDeleted("a", "v")` correctly and
fails the second call, but — because `deleteInner` returns the zero `Item`
due to the shadowed named return — the `metaDelete` message carries
`("", 0)` instead of `("a", 7)`. -/
theorem C5_delete_removed_event_bug :
    (Delete kvC5 "a").1 = none ∧
    alLookup (Delete kvC5 "a").2.1.items "a" = none ∧
    (Delete kvC5 "a").2.2.1 = [⟨CbKind.deleted, "a", GoIface.ofObj (some "v")⟩] ∧
    (Delete kvC5 "a").2.2.2 = [Ev.removed ⟨"", 0⟩] ∧
    (Delete (Delete kvC5 "a").2.1 "a").1 = some "key args not exist" := by
  decide

/-- Claim C10: whenever `Get` reports `found = false` — absent key or item
treated as expired — the returned value is `nil`; `Get` never pairs a
stale stored value with `found = false`. -/
theorem C10_get_nil_on_not_found {α : Type} (now : Int) (kv : KV α) (key : String)
    (h : (Get now kv key).2 = false) : (Get now kv key).1 = none := by
  unfold Get at h ⊢
  cases hl : alLookup kv.items key with
  | none => simp
  | some val =>
      by_cases hc : val.Expiration > now
      · simp [hl, hc] at h
      · simp [hc]

/-- Claim C10, witness: a physically present but expired item — `Get`
reports not-found and returns `nil` rather than the stale stored value. -/
theorem C10_get_nil_on_not_found_witness :
    (Get 5 kvC10 "k").2 = false ∧ (Get 5 kvC10 "k").1 = none :=
  ⟨by decide, C10_get_nil_on_not_found 5 kvC10 "k" (by decide)⟩

/-- Claim C6: `Update(key, newValue)` returns `NotFound` and leaves the
store unchanged when the key is absent; when present it replaces only the
value, keeping the stored expiration exactly as it was, so a subsequent
`Get` of an unexpired key returns `(newValue, true)`. Keys other than the
updated one are untouched. -/
theorem C6_update_preserves_expiration {α : Type} (kv : KV α) (key : String) (value : α) :
    (alLookup kv.items key = none →
       (Update kv key value).1 = some "object doesn't exist" ∧
       (Update kv key value).2.1 = kv ∧
       (Update kv key value).2.2 = []) ∧
    (∀ it, alLookup kv.items key = some it →
       (Update kv key value).1 = none ∧
       alLookup (Update kv key value).2.1.items key = some ⟨it.Key, some value, it.Expiration⟩ ∧
       (∀ k, k ≠ key → alLookup (Update kv key value).2.1.items k = alLookup kv.items k) ∧
       (∀ now, it.Expiration > now →
          Get now (Update kv key value).2.1 key = (some value, true))) := by
  constructor
  · intro h
    simp [Update, h]
  · intro it h
    refine ⟨by simp [Update, h], ?_, ?_, ?_⟩
    · simp [Update, h, alLookup_alStore_self]
    · intro k hk
      simp [Update, h, alLookup_alStore_ne _ _ _ _ hk]
    · intro now hnow
      simp [Get, Update, h, alLookup_alStore_self, hnow]

/-- Store with one unexpired item, for instantiating the `Update` theorem. -/
def kvC6 : KV String := ⟨0, 0, [("k", ⟨"k", some "v1", 100⟩)], false, false, []⟩

/-- Claim C6, witness: updating a present key succeeds, keeps the stored
expiration `100`, and a later `Get` at `now = 50` sees the new value. -/
theorem C6_update_preserves_expiration_witness :
    (Update kvC6 "k" "v2").1 = none ∧
    alLookup (Update kvC6 "k" "v2").2.1.items "k" = some ⟨"k", some "v2", 100⟩ ∧
    Get 50 (Update kvC6 "k" "v2").2.1 "k" = (some "v2", true) :=
  have h := (C6_update_preserves_expiration kvC6 "k" "v2").2 ⟨"k", some "v1", 100⟩ (by decide)
  ⟨h.1, h.2.1, h.2.2.2 50 (by decide)⟩

/-- Claim C7: `Set(key, value, ttl)` stores the item under `key` with
`expiresAt` resolved from the ttl argument (`DefaultExpiration` gives
`now + defaultExpiration`, `NoExpiration` gives `0`, anything else gives
`now + ttl`), always overwriting without error; it sends exactly one
`Added` message when the key was absent, exactly one `Updated` message
carrying the new and prior expirations when the key was present with a
changed expiration, and no message when the expiration is unchanged.
Other keys are untouched. -/
theorem C7_set_spec {α : Type} (kv : KV α) (now : Int) (key : String) (value : α)
    (exp : Int) :
    alLookup (Set now kv key value exp).1.items key =
      some ⟨key, some value,
        if exp = DefaultExpiration then now + kv.defaultExpiration
        else if exp = NoExpiration then 0 else now + exp⟩ ∧
    (Set now kv key value exp).2 =
      (match alLookup kv.items key with
       | none =>
           [Ev.added ⟨key,
             if exp = DefaultExpiration then now + kv.defaultExpiration
             else if exp = NoExpiration then 0 else now + exp⟩]
       | some prior =>
           if (if exp = DefaultExpiration then now + kv.defaultExpiration
               else if exp = NoExpiration then 0 else now + exp) ≠ prior.Expiration then
             [Ev.updated ⟨key,
               (if exp = DefaultExpiration then now + kv.defaultExpiration
                else if exp = NoExpiration then 0 else now + exp), prior.Expiration⟩]
           else []) ∧
    (∀ k, k ≠ key → alLookup (Set now kv key value exp).1.items k = alLookup kv.items k) := by
  cases hl : alLookup kv.items key with
  | none =>
      refine ⟨?_, ?_, ?_⟩
      · simp [Set, hl, alLookup_alStore_self]
      · simp [Set, hl]
      · intro k hk
        simp [Set, hl, alLookup_alStore_ne _ _ _ _ hk]
  | some prior =>
      refine ⟨?_, ?_, ?_⟩
      · simp [Set, hl, alLookup_alStore_self]
      · simp [Set, hl]
      · intro k hk
        simp [Set, hl, alLookup_alStore_ne _ _ _ _ hk]

/-- Empty store with default TTL 3600 ns, for instantiating the `Set` theorem. -/
def kvC7 : KV String := ⟨3600, 0, [], false, false, []⟩

/-- Claim C7, witness: on an empty store, `Set` at `now = 10` with explicit
ttl `7` stores `expiresAt = 17`, sends exactly one `Added` message, and
leaves another key absent; overwriting with ttl `5` then sends exactly one
`Updated` message carrying new `15` and prior `17`. -/
theorem C7_set_spec_witness :
    alLookup (Set 10 kvC7 "k" "v" 7).1.items "k" = some ⟨"k", some "v", 17⟩ ∧
    (Set 10 kvC7 "k" "v" 7).2 = [Ev.added ⟨"k", 17⟩] ∧
    alLookup (Set 10 kvC7 "k" "v" 7).1.items "x" = none ∧
    (Set 10 (Set 10 kvC7 "k" "v" 7).1 "k" "w" 5).2 = [Ev.updated ⟨"k", 15, 17⟩] := by
  have h1 := C7_set_spec kvC7 10 "k" "v" (7 : Int)
  have h2 := C7_set_spec (Set 10 kvC7 "k" "v" 7).1 10 "k" "w" (5 : Int)
  refine ⟨?_, ?_, ?_, ?_⟩
  · have := h1.1
    simpa using this
  · have := h1.2.1
    simpa using this
  · rw [h1.2.2 "x" (by decide)]
    decide
  · have := h2.2.1
    simpa using this

/-- Claim C8: `Flush()` removes every physically-present entry —
`ItemCountAll()` is `0` immediately afterwards — and spawns no callback
invocation and sends no channel message. -/
theorem C8_flush_clears_without_callbacks {α : Type} (kv : KV α) :
    ItemCountAll (Flush kv).1 = 0 ∧ (Flush kv).2.1 = [] ∧ (Flush kv).2.2 = [] := by
  refine ⟨?_, rfl, rfl⟩
  have h := foldl_alErase_keys_nil kv.items kv.items
    (fun p hp => List.mem_map_of_mem Prod.fst hp)
  simp [Flush, ItemCountAll, h]

/-- Two items whose buckets are both due at `now = 10`, and one item whose
bucket timestamp equals `now` exactly. -/
def kvC3 : KV String :=
  ⟨0, 0, [("a", ⟨"a", some "v", 1⟩), ("b", ⟨"b", some "w", 2⟩)], false, false,
   [(1, ["a"]), (2, ["b"])]⟩

/-- Store whose only bucket's timestamp equals `now = 10` exactly. -/
def kvC3b : KV String :=
  ⟨0, 0, [("c", ⟨"c", some "u", 10⟩)], false, false, [(10, ["c"])]⟩

/-- Claim C3, counterexample: the claim says a single sweep pass processes
every bucket whose timestamp is at or before `now` — deleting each member
key — before yielding. At `now = 10` with due buckets `1` and `2`, one
`DeleteExpired` pass sweeps only bucket `1`: key `b` stays in the store
and bucket `2` stays in the index. Moreover a bucket whose timestamp
equals `now` ("at ... now") is not touched at all: key `c` and bucket `10`
survive, because the code requires `expiration < now` strictly. -/
theorem C3_sweep_counterexample :
    alLookup (DeleteExpired 10 kvC3).1.items "a" = none ∧
    alLookup (DeleteExpired 10 kvC3).1.items "b" = some ⟨"b", some "w", 2⟩ ∧
    (2, ["b"]) ∈ (DeleteExpired 10 kvC3).1.exp ∧
    alLookup (DeleteExpired 10 kvC3b).1.items "c" = some ⟨"c", some "u", 10⟩ ∧
    (10, ["c"]) ∈ (DeleteExpired 10 kvC3b).1.exp := by
  decide

/-- Claim C3 (amended): a single sweep pass processes at most one bucket —
the first, in index iteration order, non-empty bucket whose timestamp is
strictly before `now` — deleting each of its member keys from the store
and discarding that bucket; every other bucket (later due buckets, and any
bucket whose timestamp is at or after `now`) is left untouched for that
pass, and keys outside the swept bucket keep their items. When no such
bucket exists the pass deletes nothing from the store, spawns no callback,
and only discards the index entry for timestamp `0`, which at that point
can hold no key once `now` is positive. -/
theorem C3_sweep_amended {α : Type} (kv : KV α) (now : Int) :
    (∀ b, kv.exp.find? (dueBucket now) = some b →
       (∀ k, k ∈ b.2 → alLookup (DeleteExpired now kv).1.items k = none) ∧
       alLookup (DeleteExpired now kv).1.exp b.1 = none ∧
       (∀ k, k ∉ b.2 → alLookup (DeleteExpired now kv).1.items k = alLookup kv.items k) ∧
       (∀ t ks, (t, ks) ∈ kv.exp → t ≠ b.1 → (t, ks) ∈ (DeleteExpired now kv).1.exp)) ∧
    (kv.exp.find? (dueBucket now) = none →
       (DeleteExpired now kv).1.items = kv.items ∧
       (DeleteExpired now kv).2 = [] ∧
       (∀ t ks, (t, ks) ∈ kv.exp → t ≠ 0 → (t, ks) ∈ (DeleteExpired now kv).1.exp)) := by
  constructor
  · intro b hb
    have hexp : (DeleteExpired now kv).1.exp = alErase kv.exp b.1 := by
      simp [DeleteExpired, hb, sweepKeys_exp]
    have hitems :
        (DeleteExpired now kv).1.items = b.2.foldl (fun acc k => alErase acc k) kv.items := by
      simp [DeleteExpired, hb, sweepKeys_items]
    refine ⟨?_, ?_, ?_, ?_⟩
    · intro k hk
      rw [hitems]
      exact alLookup_foldl_alErase_mem _ _ _ hk
    · rw [hexp]
      exact alLookup_alErase_self _ _
    · intro k hk
      rw [hitems]
      exact alLookup_foldl_alErase_not_mem _ _ _ hk
    · intro t ks hmem hne
      rw [hexp]
      exact mem_alErase_of_mem hmem hne
  · intro hnone
    refine ⟨by simp [DeleteExpired, hnone], by simp [DeleteExpired, hnone], ?_⟩
    intro t ks hmem hne
    have hexp : (DeleteExpired now kv).1.exp = alErase kv.exp 0 := by
      simp [DeleteExpired, hnone]
    rw [hexp]
    exact mem_alErase_of_mem hmem hne

/-- Claim C3 (amended), witness: at `now = 10` the first due bucket of
`kvC3` is bucket `1` holding key `a`; the pass deletes `a`, discards
bucket `1`, leaves key `b`'s item in place and keeps bucket `2`. -/
theorem C3_sweep_amended_witness :
    alLookup (DeleteExpired 10 kvC3).1.items "a" = none ∧
    alLookup (DeleteExpired 10 kvC3).1.exp 1 = none ∧
    alLookup (DeleteExpired 10 kvC3).1.items "b" = alLookup kvC3.items "b" ∧
    (2, ["b"]) ∈ (DeleteExpired 10 kvC3).1.exp :=
  have h := (C3_sweep_amended kvC3 10).1 (1, ["a"]) (by decide)
  ⟨h.1 "a" (by decide), h.2.1, h.2.2.1 "b" (by decide),
   h.2.2.2 2 ["b"] (by decide) (by decide)⟩

/-- Index state holding the single bucket `5 ↦ {k}`, about to receive an
`Updated(k, 5, 0)` event. -/
def expC9 : Buckets := [(5, ["k"])]

/-- Claim C9, counterexample: the claim says applying `Updated(key, oldT,
newT)` deletes bucket `oldT` once emptied and skips insertion when
`newT == 0`, leaving no empty bucket behind. Applying `Updated("k", 5, 0)`
to the index `[(5, {k})]` instead leaves the emptied bucket `5` in place
and inserts `k` into bucket `0`; applying `Removed("k", 5)` to the same
index likewise leaves the emptied bucket `5` behind. -/
theorem C9_event_apply_counterexample :
    applyMetaUpdate ⟨"k", 0, 5⟩ expC9 = [(5, []), (0, ["k"])] ∧
    applyMetaDelete ⟨"k", 5⟩ expC9 = [(5, [])] := by
  decide

/-- Claim C9 (amended): applying `Updated(key, oldT, newT)` removes the key
from bucket `oldT` when that bucket exists, storing the bucket back even
if it becomes empty, then inserts the key into bucket `newT`
unconditionally — including when `newT == 0` — creating the bucket if
absent; applying `Removed(key, t)` removes the key from bucket `t` when it
exists, likewise leaving the possibly-empty bucket in place. Buckets other
than the ones named by the event are untouched. Event application can
therefore leave empty buckets behind. -/
theorem C9_event_apply_amended (e : Buckets) (key : String) (oldT newT t : Int)
    (h : oldT ≠ newT) :
    (∀ ks, alLookup e oldT = some ks →
       alLookup (applyMetaUpdate ⟨key, newT, oldT⟩ e) oldT = some (bucketRemove ks key)) ∧
    (alLookup e oldT = none →
       alLookup (applyMetaUpdate ⟨key, newT, oldT⟩ e) oldT = none) ∧
    (∃ ks, alLookup (applyMetaUpdate ⟨key, newT, oldT⟩ e) newT = some ks ∧ key ∈ ks) ∧
    (∀ u, u ≠ oldT → u ≠ newT →
       alLookup (applyMetaUpdate ⟨key, newT, oldT⟩ e) u = alLookup e u) ∧
    (∀ ks, alLookup e t = some ks →
       alLookup (applyMetaDelete ⟨key, t⟩ e) t = some (bucketRemove ks key)) ∧
    (∀ u, u ≠ t → alLookup (applyMetaDelete ⟨key, t⟩ e) u = alLookup e u) := by
  have hnm : newT ≠ oldT := Ne.symm h
  refine ⟨?_, ?_, ?_, ?_, ?_, ?_⟩
  · intro ks hks
    unfold applyMetaUpdate
    simp only [hks]
    rw [alLookup_alStore_ne _ _ _ _ hnm]
    cases hn : alLookup e newT with
    | some curr =>
        simp only [hn]
        rw [alLookup_alStore_ne _ _ _ _ h, alLookup_alStore_self]
    | none =>
        simp only [hn]
        rw [alLookup_alStore_ne _ _ _ _ h, alLookup_alStore_self]
  · intro hks
    unfold applyMetaUpdate
    simp only [hks]
    cases hn : alLookup e newT with
    | some curr =>
        simp only [hn]
        rw [alLookup_alStore_ne _ _ _ _ h]
        exact hks
    | none =>
        simp only [hn]
        rw [alLookup_alStore_ne _ _ _ _ h]
        exact hks
  · unfold applyMetaUpdate
    cases ho : alLookup e oldT with
    | some ks =>
        simp only [ho]
        rw [alLookup_alStore_ne _ _ _ _ hnm]
        cases hn : alLookup e newT with
        | some curr =>
            simp only [hn]
            exact ⟨bucketInsert curr key, alLookup_alStore_self _ _ _,
              mem_bucketInsert_self _ _⟩
        | none =>
            simp only [hn]
            exact ⟨[key], alLookup_alStore_self _ _ _, List.mem_singleton_self _⟩
    | none =>
        simp only [ho]
        cases hn : alLookup e newT with
        | some curr =>
            simp only [hn]
            exact ⟨bucketInsert curr key, alLookup_alStore_self _ _ _,
              mem_bucketInsert_self _ _⟩
        | none =>
            simp only [hn]
            exact ⟨[key], alLookup_alStore_self _ _ _, List.mem_singleton_self _⟩
  · intro u hu1 hu2
    unfold applyMetaUpdate
    cases ho : alLookup e oldT with
    | some ks =>
        simp only [ho]
        rw [alLookup_alStore_ne _ _ _ _ hnm]
        cases hn : alLookup e newT with
        | some curr =>
            simp only [hn]
            rw [alLookup_alStore_ne _ _ _ _ hu2, alLookup_alStore_ne _ _ _ _ hu1]
        | none =>
            simp only [hn]
            rw [alLookup_alStore_ne _ _ _ _ hu2, alLookup_alStore_ne _ _ _ _ hu1]
    | none =>
        simp only [ho]
        cases hn : alLookup e newT with
        | some curr =>
            simp only [hn]
            rw [alLookup_alStore_ne _ _ _ _ hu2]
        | none =>
            simp only [hn]
            rw [alLookup_alStore_ne _ _ _ _ hu2]
  · intro ks hks
    unfold applyMetaDelete
    simp only [hks]
    exact alLookup_alStore_self _ _ _
  · intro u hu
    unfold applyMetaDelete
    cases ht : alLookup e t with
    | some curr =>
        simp only [ht]
        rw [alLookup_alStore_ne _ _ _ _ hu]
    | none => simp only [ht]

/-- Claim C9 (amended), witness: applying `Updated("k", 5, 0)` to
`[(5, {k})]` keeps the emptied bucket `5` (as the empty set), places `k`
in some bucket under timestamp `0`, and leaves timestamp `7` unbound;
applying `Removed("k", 5)` keeps the emptied bucket `5`. -/
theorem C9_event_apply_amended_witness :
    alLookup (applyMetaUpdate ⟨"k", 0, 5⟩ expC9) 5 = some [] ∧
    (∃ ks, alLookup (applyMetaUpdate ⟨"k", 0, 5⟩ expC9) 0 = some ks ∧ "k" ∈ ks) ∧
    alLookup (applyMetaUpdate ⟨"k", 0, 5⟩ expC9) 7 = alLookup expC9 7 ∧
    alLookup (applyMetaDelete ⟨"k", 5⟩ expC9) 5 = some [] :=
  have h := C9_event_apply_amended expC9 "k" 5 0 5 (by decide)
  ⟨h.1 ["k"] (by decide), h.2.2.1, h.2.2.2.1 7 (by decide) (by decide),
   h.2.2.2.2.1 ["k"] (by decide)⟩

end minikv
